import Mathlib

/-!
Shallow embedding of `SizeSpectrum.py`: the granulometric size-spectrum
pipeline (`calc_size_spectrum`) and its background-removal helper
(`remove_background`).

Images are 2-D arrays of real-valued samples, modelled as lists of rows
of rationals; the Python code computes with IEEE doubles, and exact
rational arithmetic is the idealisation used here.  The float constant
`np.pi` is embedded as the exact value of the IEEE-754 double closest
to π.

The three scikit-image primitives the code calls (`area_opening`,
`rolling_ball`, `rescale`) are external collaborators of this
repository; they are modelled as opaque function parameters collected
in the record `ExtPrims`, so every theorem below holds for every
possible behaviour of those primitives.
-/

/-- A 2-D image: a list of rows of rational intensity samples. -/
abbrev Image := List (List ℚ)

/-- numpy `img.sum()`: the total intensity of an image. -/
def npSum (img : Image) : ℚ := (img.map List.sum).sum

/-- numpy `img.size`: the total number of samples. -/
def npSize (img : Image) : ℕ := (img.map List.length).sum

/-- numpy `img.mean()`: total intensity divided by the sample count. -/
def npMean (img : Image) : ℚ := npSum img / (npSize img : ℚ)

/-- numpy elementwise subtraction `a - b` of two same-shape images. -/
def npSub (a b : Image) : Image :=
  List.zipWith (List.zipWith (fun x y => x - y)) a b

/-- The exact value of the IEEE-754 double constant `np.pi`. -/
def npPi : ℚ := 884279719003555 / 2 ^ 48

/-- Auxiliary recursion for `np.trapz`, over the list of (y, x) pairs:
adds one trapezoid per consecutive pair of samples. -/
def trapzAux : List (ℚ × ℚ) → ℚ
  | (y1, x1) :: (y2, x2) :: rest =>
      (x2 - x1) * (y1 + y2) / 2 + trapzAux ((y2, x2) :: rest)
  | _ => 0

/-- numpy `np.trapz(y, x=x)` for equal-length `y` and `x`: the
composite trapezoidal rule (0 for fewer than two samples). -/
def trapz (ys xs : List ℚ) : ℚ := trapzAux (ys.zip xs)

/-- Python `range(start, stop, step)` for a positive `step`:
`start, start + step, …` strictly below `stop`.  (Python raises a
`ValueError` for `step = 0`; the pipeline claims below only use
positive steps.) -/
def pyRange (start stop step : ℕ) : List ℕ :=
  (List.range ((stop - start + step - 1) / step)).map (fun i => start + step * i)

/-- The external scikit-image primitives called by `SizeSpectrum.py`:
`skimage.morphology.area_opening`, `skimage.restoration.rolling_ball`
and `skimage.transform.rescale`, each taking an image and one scalar
parameter (area threshold, ball radius, scale factor respectively). -/
structure ExtPrims where
  area_opening : Image → ℚ → Image
  rolling_ball : Image → ℚ → Image
  rescale : Image → ℚ → Image

/-- `remove_background(img, d)`: `r = d / 2.0`;
`bgimg = rolling_ball(img.astype(float), radius=r)`; `return img - bgimg`.
(`astype(float)` is the identity in this model.)  Note the source
performs the rolling-ball computation and subtraction unconditionally:
there is no branch on `d`. -/
def remove_background (rb : Image → ℚ → Image) (img : Image) (d : ℚ) : Image :=
  npSub img (rb img (d / 2))

/-- `area = np.pi * (d / 2) ** 2`: the area threshold derived from a
diameter. -/
def areaOf (d : ℚ) : ℚ := npPi * (d / 2) ^ 2

/-- The sweep loop of `calc_size_spectrum`:
`for i, d in enumerate(diams): prevint = curint;
area = np.pi * (d/2)**2; wrk = area_opening(img, area);
curint = wrk.sum(); gs[i] = prevint - curint`.
The carried argument is `curint`; each opening is applied to the same
image `img`, never to the previous opened result. -/
def spectrumLoop (aop : Image → ℚ → Image) (img : Image) :
    List ℚ → ℚ → List ℚ
  | [], _ => []
  | d :: rest, curint =>
      let curint' := npSum (aop img (areaOf d))
      (curint - curint') :: spectrumLoop aop img rest curint'

/-- The raw difference sequence `gs`: the sweep loop started from
`sum0 = img.sum()`, the total intensity of the (background-corrected)
image entering the loop. -/
def rawSpectrum (aop : Image → ℚ → Image) (img : Image) (diams : List ℚ) : List ℚ :=
  spectrumLoop aop img diams (npSum img)

/-- `diams = [1] + list(range(step, end, step))`, as real values. -/
def diams0 (step end_ : ℕ) : List ℚ :=
  1 :: (pyRange step end_ step).map (fun n : ℕ => (n : ℚ))

/-- `diams *= scale`. -/
def diamsScaled (scale : ℚ) (step end_ : ℕ) : List ℚ :=
  (diams0 step end_).map (fun d => d * scale)

/-- `if scale != 1.0: img = rescale(img, scale)`. -/
def rescaledImage (E : ExtPrims) (img : Image) (scale : ℚ) : Image :=
  if scale ≠ 1 then E.rescale img scale else img

/-- `if bg_diam > 0: img = remove_background(img, d=bg_diam * scale)`,
applied after the rescaling step. -/
def correctedImage (E : ExtPrims) (img : Image) (scale bg_diam : ℚ) : Image :=
  if bg_diam > 0 then
    remove_background E.rolling_ball (rescaledImage E img scale) (bg_diam * scale)
  else rescaledImage E img scale

/-- `sum0 = img.sum()`: total intensity of the corrected image, saved
before the sweep. -/
def calcSum0 (E : ExtPrims) (img : Image) (scale bg_diam : ℚ) : ℚ :=
  npSum (correctedImage E img scale bg_diam)

/-- The raw per-step difference sequence `gs` of `calc_size_spectrum`. -/
def calcGs (E : ExtPrims) (img : Image) (scale : ℚ) (step end_ : ℕ)
    (bg_diam : ℚ) : List ℚ :=
  rawSpectrum E.area_opening (correctedImage E img scale bg_diam)
    (diamsScaled scale step end_)

/-- `gs = gs / sum0 * 100.0`: normalisation to the initial intensity. -/
def calcGs1 (E : ExtPrims) (img : Image) (scale : ℚ) (step end_ : ℕ)
    (bg_diam : ℚ) : List ℚ :=
  (calcGs E img scale step end_ bg_diam).map
    (fun g => g / calcSum0 E img scale bg_diam * 100)

/-- `diams /= scale`: the diameter axis rescaled back to original
units. -/
def calcDiamsOut (scale : ℚ) (step end_ : ℕ) : List ℚ :=
  (diamsScaled scale step end_).map (fun d => d / scale)

/-- `z = np.trapz(gs, x=diams)`: the distribution normaliser, computed
from the normalised spectrum and the rescaled-back diameters. -/
def calcZ (E : ExtPrims) (img : Image) (scale : ℚ) (step end_ : ℕ)
    (bg_diam : ℚ) : ℚ :=
  trapz (calcGs1 E img scale step end_ bg_diam) (calcDiamsOut scale step end_)

/-- `calc_size_spectrum(img, scale, step, end, bg_diam)`: returns
`(diams, norm_gs)` with `norm_gs = origmean * (gs / z)`, where
`origmean = img.mean()` is taken on the original image before any
rescaling or background correction. -/
def calc_size_spectrum (E : ExtPrims) (img : Image) (scale : ℚ)
    (step end_ : ℕ) (bg_diam : ℚ) : List ℚ × List ℚ :=
  (calcDiamsOut scale step end_,
   (calcGs1 E img scale step end_ bg_diam).map
     (fun g => npMean img * (g / calcZ E img scale step end_ bg_diam)))

/-- Fixture primitives for concrete evaluations: the area opening
flattens every sample to 0 (total collapse), the rolling ball and the
rescaler are identities. -/
def samplePrims : ExtPrims :=
  ⟨fun im _ => im.map (fun row => row.map (fun _ => 0)),
   fun im _ => im,
   fun im _ => im⟩

/-- Modelled from the spec: scikit-image `rolling_ball` at radius
`r = 0` (the primitive is external to this repository).  Per §4.2 the
background is the locus of the highest point a ball of radius `r` can
reach while staying below the intensity surface; at `r = 0` the ball is
a point that touches the surface everywhere, so the estimated
background equals the image itself. -/
def rollingBallRadiusZero : Image → ℚ → Image := fun im _ => im

/-- An all-zero 50 × 50 image. -/
def zeroImage50 : Image := List.replicate 50 (List.replicate 50 0)

theorem spectrumLoop_length (aop : Image → ℚ → Image) (img : Image) :
    ∀ (l : List ℚ) (c : ℚ), (spectrumLoop aop img l c).length = l.length
  | [], _ => rfl
  | _ :: rest, c => by
      simp [spectrumLoop, spectrumLoop_length aop img rest]

theorem spectrumLoop_getD (aop : Image → ℚ → Image) (img : Image) :
    ∀ (l : List ℚ) (c : ℚ) (i : ℕ), i < l.length →
      (spectrumLoop aop img l c).getD i 0 =
        (if i = 0 then c else npSum (aop img (areaOf (l.getD (i - 1) 0)))) -
          npSum (aop img (areaOf (l.getD i 0)))
  | [], _, i, h => absurd h (by simp)
  | d :: rest, c, 0, _ => by simp [spectrumLoop]
  | d :: rest, c, i + 1, h => by
      have h' : i < rest.length := by simpa using h
      have ih := spectrumLoop_getD aop img rest (npSum (aop img (areaOf d))) i h'
      cases i with
      | zero => simpa [spectrumLoop] using ih
      | succ k => simpa [spectrumLoop] using ih

theorem spectrumLoop_sum_concat (aop : Image → ℚ → Image) (img : Image) (d : ℚ) :
    ∀ (ds : List ℚ) (c : ℚ),
      (spectrumLoop aop img (ds ++ [d]) c).sum = c - npSum (aop img (areaOf d))
  | [], c => by simp [spectrumLoop]
  | e :: ds, c => by
      have ih := spectrumLoop_sum_concat aop img d ds (npSum (aop img (areaOf e)))
      simp only [List.cons_append, spectrumLoop, List.sum_cons, List.append_eq]
      rw [ih]
      ring

theorem rawSpectrum_sum_concat (aop : Image → ℚ → Image) (img : Image)
    (ds : List ℚ) (d : ℚ) :
    (rawSpectrum aop img (ds ++ [d])).sum = npSum img - npSum (aop img (areaOf d)) :=
  spectrumLoop_sum_concat aop img d ds (npSum img)

theorem trapzAux_map_mul (c : ℚ) :
    ∀ l : List (ℚ × ℚ),
      trapzAux (l.map (fun p => (c * p.1, p.2))) = c * trapzAux l
  | [] => by simp [trapzAux]
  | [p] => by simp [trapzAux]
  | (y1, x1) :: (y2, x2) :: rest => by
      have ih := trapzAux_map_mul c ((y2, x2) :: rest)
      simp only [List.map_cons] at ih ⊢
      simp only [trapzAux] at ih ⊢
      rw [ih]
      ring

theorem trapz_map_mul (c : ℚ) (ys xs : List ℚ) :
    trapz (ys.map (fun y => c * y)) xs = c * trapz ys xs := by
  have hpm : Prod.map (fun y : ℚ => c * y) (id : ℚ → ℚ) =
      fun p : ℚ × ℚ => (c * p.1, p.2) := by
    funext p
    obtain ⟨a, b⟩ := p
    simp [Prod.map]
  unfold trapz
  rw [List.zip_map_left, hpm, trapzAux_map_mul]

theorem pyRange_length (start stop step : ℕ) :
    (pyRange start stop step).length = (stop - start + step - 1) / step := by
  simp [pyRange]

theorem diams0_length (step end_ : ℕ) :
    (diams0 step end_).length = 1 + (end_ - step + step - 1) / step := by
  rw [diams0]
  simp only [List.length_cons, List.length_map, pyRange_length]
  omega

theorem spectrum_length (E : ExtPrims) (img : Image) (scale : ℚ)
    (step end_ : ℕ) (bg_diam : ℚ) :
    (calc_size_spectrum E img scale step end_ bg_diam).2.length =
      (diams0 step end_).length := by
  simp [calc_size_spectrum, calcGs1, calcGs, rawSpectrum, spectrumLoop_length,
    diamsScaled]

theorem diamsScaled_ne_nil (scale : ℚ) (step end_ : ℕ) :
    diamsScaled scale step end_ ≠ [] := by
  simp [diamsScaled, diams0]

theorem getLastD_concat_q (l : List ℚ) (b : ℚ) : (l ++ [b]).getLastD 0 = b := by
  simp [List.getLastD_eq_getLast?, List.getLast?_concat]

/-- C1: the i-th raw spectrum value computed by `calc_size_spectrum` is
`prevint − curint`, where `curint` is the total intensity of the area
opening at area `π·(d i / 2)²` applied independently to the same
background-corrected image (not chained onto the previous opened
result), and iteration 0's `prevint` is `sum0`, the total intensity of
the full background-corrected image. -/
theorem c1_raw_difference (E : ExtPrims) (img : Image) (scale : ℚ)
    (step end_ : ℕ) (bg_diam : ℚ) (i : ℕ)
    (h : i < (diamsScaled scale step end_).length) :
    (calcGs E img scale step end_ bg_diam).getD i 0 =
      (if i = 0 then calcSum0 E img scale bg_diam
       else npSum (E.area_opening (correctedImage E img scale bg_diam)
           (areaOf ((diamsScaled scale step end_).getD (i - 1) 0)))) -
        npSum (E.area_opening (correctedImage E img scale bg_diam)
          (areaOf ((diamsScaled scale step end_).getD i 0))) :=
  spectrumLoop_getD E.area_opening (correctedImage E img scale bg_diam)
    (diamsScaled scale step end_) (npSum (correctedImage E img scale bg_diam)) i h

theorem c1_raw_difference_witness :
    0 < (diamsScaled 1 5 6).length ∧
      (calcGs samplePrims [[1]] 1 5 6 0).getD 0 0 =
        (if (0 : ℕ) = 0 then calcSum0 samplePrims [[1]] 1 0
         else npSum (samplePrims.area_opening (correctedImage samplePrims [[1]] 1 0)
             (areaOf ((diamsScaled 1 5 6).getD (0 - 1) 0)))) -
          npSum (samplePrims.area_opening (correctedImage samplePrims [[1]] 1 0)
            (areaOf ((diamsScaled 1 5 6).getD 0 0))) :=
  ⟨by decide, c1_raw_difference samplePrims [[1]] 1 5 6 0 0 (by decide)⟩

/-- C2: the returned spectrum equals `origmean · ((gs / sum0 · 100) / z)`
with `gs` the raw per-step differences and `z` the trapezoidal integral
of the normalised sequence over the rescaled-back diameters; when
`z ≠ 0` (the successful case) the trapezoidal area under the returned
curve equals `origmean`. -/
theorem c2_normalization (E : ExtPrims) (img : Image) (scale : ℚ)
    (step end_ : ℕ) (bg_diam : ℚ)
    (hz : calcZ E img scale step end_ bg_diam ≠ 0) :
    (calc_size_spectrum E img scale step end_ bg_diam).2 =
        (calcGs E img scale step end_ bg_diam).map
          (fun g => npMean img *
            (g / calcSum0 E img scale bg_diam * 100 /
              calcZ E img scale step end_ bg_diam)) ∧
      trapz (calc_size_spectrum E img scale step end_ bg_diam).2
          (calc_size_spectrum E img scale step end_ bg_diam).1 = npMean img := by
  constructor
  · simp only [calc_size_spectrum, calcGs1, List.map_map]
    rfl
  · have hfun : (fun g : ℚ =>
        npMean img * (g / calcZ E img scale step end_ bg_diam)) =
          fun g : ℚ => npMean img / calcZ E img scale step end_ bg_diam * g := by
      funext g
      ring
    show trapz ((calcGs1 E img scale step end_ bg_diam).map
        (fun g => npMean img * (g / calcZ E img scale step end_ bg_diam)))
        (calcDiamsOut scale step end_) = npMean img
    rw [hfun, trapz_map_mul]
    show npMean img / calcZ E img scale step end_ bg_diam *
        calcZ E img scale step end_ bg_diam = npMean img
    exact div_mul_cancel₀ _ hz

theorem c2_normalization_witness :
    calcZ samplePrims [[1]] 1 5 6 0 ≠ 0 ∧
      trapz (calc_size_spectrum samplePrims [[1]] 1 5 6 0).2
        (calc_size_spectrum samplePrims [[1]] 1 5 6 0).1 = npMean [[1]] := by
  have hz : calcZ samplePrims [[1]] 1 5 6 0 ≠ 0 := by
    norm_num [calcZ, calcGs1, calcGs, rawSpectrum, spectrumLoop, calcSum0,
      correctedImage, rescaledImage, remove_background, npSub, npSum,
      diamsScaled, diams0, pyRange, calcDiamsOut, samplePrims, trapz, trapzAux,
      List.range_succ, areaOf]
  exact ⟨hz, (c2_normalization samplePrims [[1]] 1 5 6 0 hz).2⟩

/-- C3: contrary to the required InvalidParameter rejection,
`calc_size_spectrum` performs no parameter validation.  With
`end = 3 ≤ step = 5` the call is not rejected: the code builds the
degenerate one-element diameter sequence `[1]`, runs the whole
pipeline, and returns a one-point spectrum. -/
theorem c3_no_validation :
    (calc_size_spectrum samplePrims [[1]] 1 5 3 0).1 = [1] ∧
      (calc_size_spectrum samplePrims [[1]] 1 5 3 0).2.length = 1 := by
  constructor
  · norm_num [calc_size_spectrum, calcDiamsOut, diamsScaled, diams0, pyRange]
  · rw [spectrum_length]
    decide

/-- C4: contrary to the required DegenerateImage rejection, the all-zero
50 × 50 image is not detected: the background-corrected total intensity
`sum0` is 0 — so the normalisation `gs / sum0` divides by zero — and
`calc_size_spectrum` still produces a full-length (30-point) spectrum
instead of raising an explicit error. -/
theorem c4_degenerate_not_rejected :
    calcSum0 samplePrims zeroImage50 1 0 = 0 ∧
      (calc_size_spectrum samplePrims zeroImage50 1 5 150 0).2.length = 30 := by
  constructor
  · simp [calcSum0, correctedImage, rescaledImage, zeroImage50, npSum,
      List.map_replicate, List.sum_replicate]
  · rw [spectrum_length]
    decide

/-- C5 counterexample: with `step = 5`, `end = 11` the returned spectrum
has length 3 (diameters `[1, 5, 10]`), while the claimed formula
`1 + ⌊(end − 1 − 1) / step⌋` gives 2 — the claim fails whenever `step`
divides `end − 1`. -/
theorem c5_length_counterexample :
    (calc_size_spectrum samplePrims [[1]] 1 5 11 0).2.length = 3 ∧
      1 + (11 - 1 - 1) / 5 = 2 := by
  constructor
  · rw [spectrum_length]
    decide
  · decide

/-- C5 (amended): for `0 < step` and `step < end` the length of the
returned spectrum equals `1 + ⌊(end − 1) / step⌋`. -/
theorem c5_length_amended (E : ExtPrims) (img : Image) (scale : ℚ)
    (bg_diam : ℚ) (step end_ : ℕ) (h1 : 0 < step) (h2 : step < end_) :
    (calc_size_spectrum E img scale step end_ bg_diam).2.length =
      1 + (end_ - 1) / step := by
  rw [spectrum_length, diams0_length]
  have h : end_ - step + step - 1 = end_ - 1 := by omega
  rw [h]

theorem c5_length_amended_witness :
    (0 < 5 ∧ 5 < 11) ∧
      (calc_size_spectrum samplePrims [[1]] 1 5 11 0).2.length = 1 + (11 - 1) / 5 :=
  ⟨⟨by decide, by decide⟩,
   c5_length_amended samplePrims [[1]] 1 0 5 11 (by decide) (by decide)⟩

/-- C6 counterexample: `remove_background` has no bypass — it performs
the rolling-ball computation and subtraction unconditionally.  With the
spec-modelled radius-0 rolling ball (background = image), diameter 0 on
the image `[[10]]` yields `[[0]]`, not the unmodified input. -/
theorem c6_no_bypass_counterexample :
    remove_background rollingBallRadiusZero [[10]] 0 = [[0]] ∧
      remove_background rollingBallRadiusZero [[10]] 0 ≠ [[10]] := by
  constructor
  · norm_num [remove_background, rollingBallRadiusZero, npSub]
  · norm_num [remove_background, rollingBallRadiusZero, npSub]

/-- C6 (amended): the `d ≤ 0` identity bypass lives in
`calc_size_spectrum`, not in `remove_background`: when `bg_diam ≤ 0`
the guard `if bg_diam > 0` skips background removal entirely and the
(rescaled) image passes through unmodified. -/
theorem c6_bypass_amended (E : ExtPrims) (img : Image) (scale bg_diam : ℚ)
    (h : bg_diam ≤ 0) :
    correctedImage E img scale bg_diam = rescaledImage E img scale := by
  unfold correctedImage
  rw [if_neg (not_lt.mpr h)]

theorem c6_bypass_amended_witness :
    (0 : ℚ) ≤ 0 ∧
      correctedImage samplePrims [[1]] 1 0 = rescaledImage samplePrims [[1]] 1 :=
  ⟨le_refl 0, c6_bypass_amended samplePrims [[1]] 1 0 (le_refl 0)⟩

/-- C7: the normalisation anchor of the returned spectrum is
`npMean img`, the mean of the original, unscaled input image: the
output factors as `npMean img` times a shape computed from the
rescaled, background-corrected image only (`calcGs1`/`calcZ`), for
every behaviour of the rescaling primitive. -/
theorem c7_origmean_anchor (E : ExtPrims) (img : Image) (scale : ℚ)
    (step end_ : ℕ) (bg_diam : ℚ) :
    (calc_size_spectrum E img scale step end_ bg_diam).2 =
      (calcGs1 E img scale step end_ bg_diam).map
        (fun g => npMean img * (g / calcZ E img scale step end_ bg_diam)) := rfl

/-- C8: for `scale > 0` the diameter sequence round-trips through the
scaling — every entry of `{1} ∪ {step, 2·step, …, < end}` is multiplied
by `scale` before the sweep and divided by `scale` before return, so
the returned diameters equal the original-unit sequence. -/
theorem c8_diameter_roundtrip (E : ExtPrims) (img : Image) (scale : ℚ)
    (step end_ : ℕ) (bg_diam : ℚ) (h : 0 < scale) :
    (calc_size_spectrum E img scale step end_ bg_diam).1 = diams0 step end_ := by
  show calcDiamsOut scale step end_ = diams0 step end_
  rw [calcDiamsOut, diamsScaled, List.map_map]
  have hfun : ((fun d : ℚ => d / scale) ∘ fun d : ℚ => d * scale) = id := by
    funext d
    simp only [Function.comp_apply, id_eq]
    exact mul_div_cancel_right₀ d (ne_of_gt h)
  rw [hfun, List.map_id]

theorem c8_diameter_roundtrip_witness :
    (0 : ℚ) < 1 ∧
      (calc_size_spectrum samplePrims [[1]] 1 5 11 0).1 = diams0 5 11 :=
  ⟨one_pos, c8_diameter_roundtrip samplePrims [[1]] 1 5 11 0 one_pos⟩

/-- C9: the two sequences returned by `calc_size_spectrum` always have
equal length. -/
theorem c9_equal_lengths (E : ExtPrims) (img : Image) (scale : ℚ)
    (step end_ : ℕ) (bg_diam : ℚ) :
    (calc_size_spectrum E img scale step end_ bg_diam).1.length =
      (calc_size_spectrum E img scale step end_ bg_diam).2.length := by
  rw [spectrum_length]
  show (calcDiamsOut scale step end_).length = _
  simp [calcDiamsOut, diamsScaled]

/-- C10: the raw difference sequence telescopes — its sum equals `sum0`
minus the total intensity of the corrected image opened at the area of
the last probed diameter (the largest, since the constructed sequence
is ascending), regardless of what the area-opening primitive returns at
intermediate scales. -/
theorem c10_telescoping (E : ExtPrims) (img : Image) (scale : ℚ)
    (step end_ : ℕ) (bg_diam : ℚ) :
    (calcGs E img scale step end_ bg_diam).sum =
      calcSum0 E img scale bg_diam -
        npSum (E.area_opening (correctedImage E img scale bg_diam)
          (areaOf ((diamsScaled scale step end_).getLastD 0))) := by
  obtain ⟨L, b, hLb⟩ :=
    (List.eq_nil_or_concat (diamsScaled scale step end_)).resolve_left
      (diamsScaled_ne_nil scale step end_)
  rw [List.concat_eq_append] at hLb
  rw [calcGs, hLb, getLastD_concat_q, rawSpectrum_sum_concat]
  rfl
